import Mathlib

/-!
Verification of the pipeline interpreter of the uv3dp command-line tool
(`cmd/uv3dp/main.go`).

The interpreter `evaluate(args []string)` repeatedly consumes the head token
of the argument list.  A token that is a key of `commandMap` selects a
Commander (parse options, then `Filter` the live printable); any other token
is resolved through `uv3dp.NewFormat` (parse options, then `Printable()` to
decode when no live value exists yet, or `SetPrintable` to encode when one
does).  The first decode is wrapped in `uv3dp.NewCachedPrintable(input, 64)`.

The embedding below models the external collaborators (formats, commanders,
the cache constructor) as an explicit environment of oracles, and instruments
each externally visible operation of the loop body with a trace `Event`, so
that properties about "what the interpreter invoked, on what, and in which
order" become statements about the produced trace.  The loop itself is given
fueled semantics (`evalLoop`), with `none` meaning fuel exhaustion; the
top-level `evaluate` runs the loop with fuel equal to the token count, which
suffices whenever every stage returns a sub-list of the tokens it was handed.
-/

namespace Uv3dp

/-- Command-line tokens are plain strings, as in `evaluate(args []string)`. -/
abbrev Token := String

/-- One externally visible action taken by the interpreter loop body:
printing usage, invoking a decode (`format.Printable()`) at a token,
constructing the layer cache (`uv3dp.NewCachedPrintable`) with a capacity,
invoking an encode (`format.SetPrintable(input)`) at a token with the live
value, or invoking a command's `Filter` at a token with its (possibly null)
input. -/
inductive Event (P : Type) where
  | usage : Event P
  | decode (tok : Token) : Event P
  | cacheWrap (cap : Nat) : Event P
  | encode (tok : Token) (val : P) : Event P
  | filter (tok : Token) (inp : Option P) : Event P
  deriving DecidableEq

/-- The observable behaviour of one `*uv3dp.Format` instance produced by
`uv3dp.NewFormat(tok, rest)`: the result of `format.Parse(rest)` (which in
the source receives the same `args[1:]` slice as `NewFormat`), the residual
tokens `format.Args()`, the result of `format.Printable()` as a
(possibly nil printable, error) pair, and `format.SetPrintable`. -/
structure FormatInstance (P E : Type) where
  parseResult : Option E
  residual : List Token
  decodeResult : Option P × Option E
  encodeResult : P → Option E

/-- The observable behaviour of one Commander instance
(`item.NewCommander()`) after `cmd.Parse(rest)`: the parse result, the
residual tokens `cmd.Args()`, and `cmd.Filter`, which in the source receives
the current `input uv3dp.Printable` — an interface value that may be nil —
and returns an (output, error) pair whose output may also be nil. -/
structure CmdInstance (P E : Type) where
  parseResult : Option E
  residual : List Token
  filterFn : Option P → Option P × Option E

/-- The environment of external collaborators of `evaluate`: the `commandMap`
registry (key to Commander constructor, the constructor here already applied
to the option tokens it will parse), the `uv3dp.NewFormat` resolution
function, and the `uv3dp.NewCachedPrintable` constructor (which in Go never
returns a nil interface, hence the bare `P` codomain). -/
structure Env (P E : Type) where
  commandMap : Token → Option (List Token → CmdInstance P E)
  newFormat : Token → List Token → Except E (FormatInstance P E)
  cache : Option P → Nat → P

/-- `const defaultCachedLayers = 64` from `main.go`. -/
def defaultCachedLayers : Nat := 64

/-- Outcome of one iteration of the `for len(args) > 0` loop body: either the
function returns (with the events of this iteration and the returned error),
or the loop continues with new `args` and a new `input`. -/
inductive StepOut (P E : Type) where
  | halt (events : List (Event P)) (err : Option E) : StepOut P E
  | next (events : List (Event P)) (args : List Token) (input : Option P) : StepOut P E

/-- The events recorded by one loop-body outcome. -/
def StepOut.eventsOf {P E : Type} : StepOut P E → List (Event P)
  | StepOut.halt evs _ => evs
  | StepOut.next evs _ _ => evs

/-- One iteration of the loop body of `evaluate` (main.go lines 108-159) on a
non-empty argument list `tok :: rest` with current live value `input`:
check for the `help` keyword, then look `tok` up in `commandMap`; on a hit,
parse and run `Filter` on the (possibly nil) input; on a miss, resolve via
`NewFormat`, parse, then decode-and-cache-wrap when `input` is nil or encode
when it is live. -/
def step {P E : Type} (env : Env P E) (tok : Token) (rest : List Token)
    (input : Option P) : StepOut P E :=
  if tok = "help" then
    StepOut.halt [Event.usage] none
  else
    match env.commandMap tok with
    | some mkCmd =>
      let cmd := mkCmd rest
      match cmd.parseResult with
      | some e => StepOut.halt [] (some e)
      | none =>
        match cmd.filterFn input with
        | (out, none) => StepOut.next [Event.filter tok input] cmd.residual out
        | (_, some e) => StepOut.halt [Event.filter tok input] (some e)
    | none =>
      match env.newFormat tok rest with
      | Except.error e => StepOut.halt [] (some e)
      | Except.ok f =>
        match f.parseResult with
        | some e => StepOut.halt [] (some e)
        | none =>
          match input with
          | none =>
            match f.decodeResult with
            | (_, some e) => StepOut.halt [Event.decode tok] (some e)
            | (p, none) =>
              StepOut.next [Event.decode tok, Event.cacheWrap defaultCachedLayers]
                f.residual (some (env.cache p defaultCachedLayers))
          | some p =>
            match f.encodeResult p with
            | some e => StepOut.halt [Event.encode tok p] (some e)
            | none => StepOut.next [Event.encode tok p] f.residual (some p)

/-- Fueled semantics of the `for len(args) > 0` loop: returns the recorded
event trace and the error value `evaluate` returns (`none` for success), or
`Option.none` when the fuel is exhausted before the loop exits. -/
def evalLoop {P E : Type} (env : Env P E) :
    Nat → List Token → Option P → Option (List (Event P) × Option E)
  | _, [], _ => some ([], none)
  | 0, _ :: _, _ => none
  | fuel + 1, tok :: rest, input =>
    match step env tok rest input with
    | StepOut.halt evs err => some (evs, err)
    | StepOut.next evs args' input' =>
      match evalLoop env fuel args' input' with
      | none => none
      | some (tr, err) => some (evs ++ tr, err)

/-- `evaluate` (main.go lines 99-162): empty argument lists print usage and
succeed; otherwise the loop runs from a nil `input`.  Fuel equal to the
token count suffices whenever every stage's residual tokens form a sub-list
of the tokens it was handed (see the termination theorem). -/
def evaluate {P E : Type} (env : Env P E) (args : List Token) :
    Option (List (Event P) × Option E) :=
  if args.isEmpty then some ([Event.usage], none)
  else evalLoop env args.length args none

theorem evalLoop_cons_halt {P E : Type} (env : Env P E) (fuel : Nat) (tok : Token)
    (rest : List Token) (input : Option P) (evs : List (Event P)) (err : Option E)
    (h : step env tok rest input = StepOut.halt evs err) :
    evalLoop env (fuel + 1) (tok :: rest) input = some (evs, err) := by
  simp [evalLoop, h]

theorem evalLoop_cons_next {P E : Type} (env : Env P E) (fuel : Nat) (tok : Token)
    (rest : List Token) (input : Option P) (evs : List (Event P))
    (args' : List Token) (input' : Option P)
    (h : step env tok rest input = StepOut.next evs args' input') :
    evalLoop env (fuel + 1) (tok :: rest) input =
      (evalLoop env fuel args' input').map (fun r => (evs ++ r.1, r.2)) := by
  simp only [evalLoop, h]
  cases evalLoop env fuel args' input' with
  | none => rfl
  | some r => cases r; rfl

/-- Exhaustive case analysis of one loop-body iteration in the `Loaded`
state (live value `some p`): it either prints usage, returns an error (with
at most the one event of the failing operation), performs an encode and
continues with the *same* live value, or performs a filter and continues
with the filter's output. -/
theorem step_some_cases {P E : Type} (env : Env P E) (tok : Token)
    (rest : List Token) (p : P) :
    step env tok rest (some p) = StepOut.halt [Event.usage] none ∨
    (∃ evs e, (evs = ([] : List (Event P)) ∨ evs = [Event.filter tok (some p)] ∨
        evs = [Event.encode tok p]) ∧
      step env tok rest (some p) = StepOut.halt evs (some e)) ∨
    (∃ f, env.newFormat tok rest = Except.ok f ∧ f.parseResult = none ∧
      f.encodeResult p = none ∧
      step env tok rest (some p) = StepOut.next [Event.encode tok p] f.residual (some p)) ∨
    (∃ mkCmd out, env.commandMap tok = some mkCmd ∧
      (mkCmd rest).filterFn (some p) = (out, none) ∧
      step env tok rest (some p) =
        StepOut.next [Event.filter tok (some p)] (mkCmd rest).residual out) := by
  by_cases htok : tok = "help"
  · left
    simp [step, htok]
  · cases hc : env.commandMap tok with
    | some mkCmd =>
      cases hp : (mkCmd rest).parseResult with
      | some e =>
        right; left
        exact ⟨[], e, Or.inl rfl, by simp [step, htok, hc, hp]⟩
      | none =>
        cases hf : (mkCmd rest).filterFn (some p) with
        | mk out err =>
          cases err with
          | some e =>
            right; left
            exact ⟨[Event.filter tok (some p)], e, Or.inr (Or.inl rfl),
              by simp [step, htok, hc, hp, hf]⟩
          | none =>
            right; right; right
            exact ⟨mkCmd, out, rfl, hf, by simp [step, htok, hc, hp, hf]⟩
    | none =>
      cases hnf : env.newFormat tok rest with
      | error e =>
        right; left
        exact ⟨[], e, Or.inl rfl, by simp [step, htok, hc, hnf]⟩
      | ok f =>
        cases hp : f.parseResult with
        | some e =>
          right; left
          exact ⟨[], e, Or.inl rfl, by simp [step, htok, hc, hnf, hp]⟩
        | none =>
          cases he : f.encodeResult p with
          | some e =>
            right; left
            exact ⟨[Event.encode tok p], e, Or.inr (Or.inr rfl),
              by simp [step, htok, hc, hnf, hp, he]⟩
          | none =>
            right; right; left
            exact ⟨f, rfl, hp, he, by simp [step, htok, hc, hnf, hp, he]⟩

/-- Exhaustive case analysis of one loop-body iteration in the `Empty` state
(nil live value): it either prints usage, returns an error, performs a
decode followed by the cache wrap and continues with the wrapped value, or
invokes a filter on the nil input and continues with the filter's output. -/
theorem step_none_cases {P E : Type} (env : Env P E) (tok : Token)
    (rest : List Token) :
    step env tok rest none = StepOut.halt [Event.usage] none ∨
    (∃ evs e, (evs = ([] : List (Event P)) ∨ evs = [Event.filter tok none] ∨
        evs = [Event.decode tok]) ∧
      step env tok rest none = StepOut.halt evs (some e)) ∨
    (∃ f p, env.newFormat tok rest = Except.ok f ∧ f.parseResult = none ∧
      f.decodeResult = (p, none) ∧
      step env tok rest none =
        StepOut.next [Event.decode tok, Event.cacheWrap defaultCachedLayers]
          f.residual (some (env.cache p defaultCachedLayers))) ∨
    (∃ mkCmd out, env.commandMap tok = some mkCmd ∧
      (mkCmd rest).filterFn none = (out, none) ∧
      step env tok rest none =
        StepOut.next [Event.filter tok none] (mkCmd rest).residual out) := by
  by_cases htok : tok = "help"
  · left
    simp [step, htok]
  · cases hc : env.commandMap tok with
    | some mkCmd =>
      cases hp : (mkCmd rest).parseResult with
      | some e =>
        right; left
        exact ⟨[], e, Or.inl rfl, by simp [step, htok, hc, hp]⟩
      | none =>
        cases hf : (mkCmd rest).filterFn none with
        | mk out err =>
          cases err with
          | some e =>
            right; left
            exact ⟨[Event.filter tok none], e, Or.inr (Or.inl rfl),
              by simp [step, htok, hc, hp, hf]⟩
          | none =>
            right; right; right
            exact ⟨mkCmd, out, rfl, hf, by simp [step, htok, hc, hp, hf]⟩
    | none =>
      cases hnf : env.newFormat tok rest with
      | error e =>
        right; left
        exact ⟨[], e, Or.inl rfl, by simp [step, htok, hc, hnf]⟩
      | ok f =>
        cases hp : f.parseResult with
        | some e =>
          right; left
          exact ⟨[], e, Or.inl rfl, by simp [step, htok, hc, hnf, hp]⟩
        | none =>
          cases hd : f.decodeResult with
          | mk q err =>
            cases err with
            | some e =>
              right; left
              exact ⟨[Event.decode tok], e, Or.inr (Or.inr rfl),
                by simp [step, htok, hc, hnf, hp, hd]⟩
            | none =>
              right; right; left
              exact ⟨f, q, rfl, hp, hd, by simp [step, htok, hc, hnf, hp, hd]⟩

/-- Trace discipline of the loop from the `Loaded` state: only encodes and
filters on a live input, optionally terminated by a single usage display —
never a decode and never a cache construction. -/
def loadedShape {P : Type} : List (Event P) → Bool
  | [] => true
  | [Event.usage] => true
  | Event.encode _ _ :: tl => loadedShape tl
  | Event.filter _ (some _) :: tl => loadedShape tl
  | _ => false

/-- Trace discipline of a whole pipeline started from the `Empty` state:
either nothing, or a lone usage display, or exactly one decode immediately
followed by the one cache construction at the default capacity, and from
then on only encodes and live filters. -/
def emptyShape {P : Type} : List (Event P) → Bool
  | [] => true
  | [Event.usage] => true
  | Event.decode _ :: Event.cacheWrap c :: tl =>
    (c == defaultCachedLayers) && loadedShape tl
  | _ => false

/-- Is any cache construction recorded in the event list? -/
def hasCacheWrap {P : Type} : List (Event P) → Bool
  | [] => false
  | Event.cacheWrap _ :: _ => true
  | _ :: tl => hasCacheWrap tl

/-- Commander contract, first half (spec section 4.4 and the bodies of the
registered `info`, `decimate` and `exposure` commands, which are outside the
interpreter source): `Filter` invoked on a nil input always fails. -/
def FiltersRejectNil {P E : Type} (env : Env P E) : Prop :=
  ∀ tok mkCmd rest, env.commandMap tok = some mkCmd →
    (((mkCmd rest).filterFn none).2).isSome = true

/-- Commander contract, second half (spec section 4.4): a `Filter` that
succeeds returns a live (non-nil) output printable. -/
def FiltersPreserveLive {P E : Type} (env : Env P E) : Prop :=
  ∀ tok mkCmd rest inp, env.commandMap tok = some mkCmd →
    ((mkCmd rest).filterFn inp).2 = none →
    (((mkCmd rest).filterFn inp).1).isSome = true

/-- A successful loop-body iteration from the `Loaded` state continues with a
live value, provided successful filters return live outputs. -/
theorem step_next_isSome {P E : Type} (env : Env P E)
    (hlive : FiltersPreserveLive env) (tok : Token) (rest : List Token) (p : P)
    (evs : List (Event P)) (args' : List Token) (input' : Option P)
    (h : step env tok rest (some p) = StepOut.next evs args' input') :
    input'.isSome = true := by
  rcases step_some_cases env tok rest p with h0 | ⟨evs', e, _, h0⟩ |
      ⟨f, _, _, _, h0⟩ | ⟨mkCmd, out, hc, hf, h0⟩ <;> rw [h0] at h
  · cases h
  · cases h
  · cases h
    simp
  · cases h
    have := hlive tok mkCmd rest (some p) hc (by rw [hf])
    rw [hf] at this
    exact this

/-- Trace discipline from the `Loaded` state: every terminating successful
run of the loop started with a live value produces a `loadedShape` trace. -/
theorem evalLoop_loadedShape {P E : Type} (env : Env P E)
    (hlive : FiltersPreserveLive env) :
    ∀ fuel args p tr, evalLoop env fuel args (some p) = some (tr, none) →
      loadedShape tr = true := by
  intro fuel
  induction fuel with
  | zero =>
    intro args p tr h
    cases args with
    | nil =>
      simp [evalLoop] at h
      simp [h, loadedShape]
    | cons tok rest => cases h
  | succ n ih =>
    intro args p tr h
    cases args with
    | nil =>
      simp [evalLoop] at h
      simp [h, loadedShape]
    | cons tok rest =>
      rcases step_some_cases env tok rest p with h0 | ⟨evs', e, _, h0⟩ |
          ⟨f, _, _, _, h0⟩ | ⟨mkCmd, out, hc, hf, h0⟩
      · rw [evalLoop_cons_halt env n tok rest (some p) _ _ h0] at h
        cases h
        simp [loadedShape]
      · rw [evalLoop_cons_halt env n tok rest (some p) _ _ h0] at h
        cases h
      · rw [evalLoop_cons_next env n tok rest (some p) _ _ _ h0] at h
        cases hrec : evalLoop env n f.residual (some p) with
        | none => rw [hrec] at h; cases h
        | some r =>
          rw [hrec] at h
          cases r with
          | mk tr' err' =>
            simp at h
            rcases h with ⟨htr, herr⟩
            subst herr
            rw [← htr]
            simpa [loadedShape] using ih f.residual p tr' hrec
      · have hout : out.isSome = true :=
          step_next_isSome env hlive tok rest p _ _ _ h0
        rcases Option.isSome_iff_exists.mp hout with ⟨q, hq⟩
        subst hq
        rw [evalLoop_cons_next env n tok rest (some p) _ _ _ h0] at h
        cases hrec : evalLoop env n (mkCmd rest).residual (some q) with
        | none => rw [hrec] at h; cases h
        | some r =>
          rw [hrec] at h
          cases r with
          | mk tr' err' =>
            simp at h
            rcases h with ⟨htr, herr⟩
            subst herr
            rw [← htr]
            simpa [loadedShape] using ih (mkCmd rest).residual q tr' hrec

/-- Trace discipline from the `Empty` state: under the commander contract,
every terminating successful run of the loop started with no live value
produces an `emptyShape` trace. -/
theorem evalLoop_emptyShape {P E : Type} (env : Env P E)
    (hnil : FiltersRejectNil env) (hlive : FiltersPreserveLive env) :
    ∀ fuel args tr, evalLoop env fuel args none = some (tr, none) →
      emptyShape tr = true := by
  intro fuel args tr h
  cases args with
  | nil =>
    cases fuel <;> · simp [evalLoop] at h; simp [h, emptyShape]
  | cons tok rest =>
    cases fuel with
    | zero => cases h
    | succ n =>
      rcases step_none_cases env tok rest with h0 | ⟨evs', e, _, h0⟩ |
          ⟨f, p, _, _, _, h0⟩ | ⟨mkCmd, out, hc, hf, h0⟩
      · rw [evalLoop_cons_halt env n tok rest none _ _ h0] at h
        cases h
        simp [emptyShape]
      · rw [evalLoop_cons_halt env n tok rest none _ _ h0] at h
        cases h
      · rw [evalLoop_cons_next env n tok rest none _ _ _ h0] at h
        cases hrec : evalLoop env n f.residual
            (some (env.cache p defaultCachedLayers)) with
        | none => rw [hrec] at h; cases h
        | some r =>
          rw [hrec] at h
          cases r with
          | mk tr' err' =>
            simp at h
            rcases h with ⟨htr, herr⟩
            subst herr
            rw [← htr]
            have := evalLoop_loadedShape env hlive n f.residual _ tr' hrec
            simp [emptyShape, this]
      · have := hnil tok mkCmd rest hc
        rw [hf] at this
        cases this

/-- Reachability between interpreter loop states (remaining tokens, live
value) through zero or more continuing loop-body iterations. -/
inductive Reaches {P E : Type} (env : Env P E) :
    (List Token × Option P) → (List Token × Option P) → Prop where
  | refl (s : List Token × Option P) : Reaches env s s
  | head {tok : Token} {rest : List Token} {input : Option P}
      {evs : List (Event P)} {args' : List Token} {input' : Option P}
      {s' : List Token × Option P}
      (hstep : step env tok rest input = StepOut.next evs args' input')
      (htail : Reaches env (args', input') s') :
      Reaches env (tok :: rest, input) s'

/-- Precondition of the termination argument: every stage's residual tokens
(`cmd.Args()` and `format.Args()`) form a sub-list of the `args[1:]` tokens
the stage was handed. -/
def ResidualsShrink {P E : Type} (env : Env P E) : Prop :=
  (∀ tok mkCmd rest, env.commandMap tok = some mkCmd →
    List.Sublist ((mkCmd rest).residual) rest) ∧
  (∀ tok rest f, env.newFormat tok rest = Except.ok f →
    List.Sublist (f.residual) rest)

/-- Under the sub-list precondition, a continuing loop-body iteration leaves
a token list that is a sub-list of the tail of the one it consumed. -/
theorem step_next_args_sublist {P E : Type} (env : Env P E)
    (hsh : ResidualsShrink env) (tok : Token) (rest : List Token)
    (input : Option P) (evs : List (Event P)) (args' : List Token)
    (input' : Option P)
    (h : step env tok rest input = StepOut.next evs args' input') :
    List.Sublist args' rest := by
  cases input with
  | none =>
    rcases step_none_cases env tok rest with h0 | ⟨evs', e, _, h0⟩ |
        ⟨f, p, hnf, _, _, h0⟩ | ⟨mkCmd, out, hc, _, h0⟩ <;> rw [h0] at h
    · cases h
    · cases h
    · cases h
      exact hsh.2 tok rest f hnf
    · cases h
      exact hsh.1 tok mkCmd rest hc
  | some p =>
    rcases step_some_cases env tok rest p with h0 | ⟨evs', e, _, h0⟩ |
        ⟨f, hnf, _, _, h0⟩ | ⟨mkCmd, out, hc, _, h0⟩ <;> rw [h0] at h
    · cases h
    · cases h
    · cases h
      exact hsh.2 tok rest f hnf
    · cases h
      exact hsh.1 tok mkCmd rest hc

/-- Under the sub-list precondition the fueled loop never exhausts fuel as
long as the fuel is at least the number of remaining tokens. -/
theorem evalLoop_total {P E : Type} (env : Env P E) (hsh : ResidualsShrink env) :
    ∀ fuel args input, args.length ≤ fuel →
      (evalLoop env fuel args input).isSome = true := by
  intro fuel
  induction fuel with
  | zero =>
    intro args input hlen
    rw [List.length_eq_zero.mp (Nat.le_zero.mp hlen)]
    rfl
  | succ n ih =>
    intro args input hlen
    cases args with
    | nil => rfl
    | cons tok rest =>
      cases hstep : step env tok rest input with
      | halt evs err =>
        rw [evalLoop_cons_halt env n tok rest input _ _ hstep]
        rfl
      | next evs args' input' =>
        rw [evalLoop_cons_next env n tok rest input _ _ _ hstep]
        have hsub := step_next_args_sublist env hsh tok rest input _ _ _ hstep
        have hlen' : args'.length ≤ n := by
          have h1 : args'.length ≤ rest.length := List.Sublist.length_le hsub
          have h2 : rest.length ≤ n := Nat.lt_succ_iff.mp (by
            simpa [List.length_cons, Nat.lt_succ_iff] using hlen)
          exact Nat.le_trans h1 h2
        rcases Option.isSome_iff_exists.mp (ih args' input' hlen') with ⟨r, hr⟩
        rw [hr]
        rfl

/-- Modelled from the spec: a registered filter command such as `decimate`
(the command bodies are outside the interpreter source file): option parsing
succeeds, no extra tokens are consumed beyond the command's own options, and
`Filter` fails with `NoInputError` on a nil input (spec sections 4.4 and 7)
while transforming a live input into a live output. -/
def decimateCmd (rest : List Token) : CmdInstance Nat String where
  parseResult := none
  residual := rest
  filterFn := fun inp =>
    match inp with
    | none => (none, some "NoInputError")
    | some n => (some (n + 1), none)

/-- Modelled from the spec: a format instance whose parse succeeds, which
decodes to the given value and whose encode always succeeds (spec section
4.2); used to instantiate the interpreter theorems on concrete runs. -/
def demoFormat (rest : List Token) (val : Nat) : FormatInstance Nat String where
  parseResult := none
  residual := rest
  decodeResult := (some val, none)
  encodeResult := fun _ => none

/-- A small concrete environment used to evaluate the interpreter theorems
on closed runs: one registered command and two recognized format tokens;
every other token fails format resolution with an unrecognized-format
error, and the cache constructor is a pass-through. -/
def demoEnv : Env Nat String where
  commandMap := fun tok =>
    if tok = "decimate" then some decimateCmd else none
  newFormat := fun tok rest =>
    if tok = "in.sl1" then Except.ok (demoFormat rest 10)
    else if tok = "out.ctb" then Except.ok (demoFormat rest 20)
    else Except.error (String.append "UnrecognizedFormat: " tok)
  cache := fun p _ => p.getD 0

theorem demoEnv_rejectNil : FiltersRejectNil demoEnv := by
  intro tok mkCmd rest hc
  by_cases h : tok = "decimate"
  · simp [demoEnv, h] at hc
    rw [← hc]
    rfl
  · simp [demoEnv, h] at hc

theorem demoEnv_preserveLive : FiltersPreserveLive demoEnv := by
  intro tok mkCmd rest inp hc hsucc
  by_cases h : tok = "decimate"
  · simp [demoEnv, h] at hc
    rw [← hc] at hsucc ⊢
    cases inp with
    | none => cases hsucc
    | some n => rfl
  · simp [demoEnv, h] at hc

theorem demoEnv_shrink : ResidualsShrink demoEnv := by
  constructor
  · intro tok mkCmd rest hc
    by_cases h : tok = "decimate"
    · simp [demoEnv, h] at hc
      rw [← hc]
      exact List.Sublist.refl rest
    · simp [demoEnv, h] at hc
  · intro tok rest f hf
    by_cases h1 : tok = "in.sl1"
    · simp [demoEnv, h1] at hf
      rw [← hf]
      exact List.Sublist.refl rest
    · by_cases h2 : tok = "out.ctb"
      · simp [demoEnv, h1, h2] at hf
        rw [← hf]
        exact List.Sublist.refl rest
      · simp [demoEnv, h1, h2] at hf

/-- Modelled from the spec: the mutable state of the layer-cache decorator
`CachedPrintable` (spec section 4.5; the decorator lives in the `uv3dp`
library package, outside the interpreter source file): an eviction-ordered
mapping from layer index to decoded layer content, kept here as an
association list with the most recently accessed entry first. -/
structure CacheState (L : Type) where
  entries : List (Nat × L)

/-- Index lookup in the eviction-ordered association list. -/
def lookupIdx {L : Type} : List (Nat × L) → Nat → Option L
  | [], _ => none
  | (j, v) :: es, i => if j = i then some v else lookupIdx es i

/-- Drop the entry of a given index from the association list. -/
def removeIdx {L : Type} (es : List (Nat × L)) (i : Nat) : List (Nat × L) :=
  es.filter (fun e => e.1 != i)

/-- Modelled from the spec: one `layer(i)` read through the decorator (spec
section 4.5): on a hit, return the stored content without delegating and
refresh the entry's recency; on a miss, delegate to the wrapped printable's
layer function, store the result, and evict the least-recently-accessed
entry if the cache now holds more than `cap` entries. -/
def cacheRead {L : Type} (layer : Nat → L) (cap : Nat) (s : CacheState L)
    (i : Nat) : L × CacheState L :=
  match lookupIdx s.entries i with
  | some v => (v, ⟨(i, v) :: removeIdx s.entries i⟩)
  | none =>
    let v := layer i
    let es := (i, v) :: s.entries
    (v, ⟨if cap < es.length then es.dropLast else es⟩)

/-- A sequence of layer reads through the decorator, collecting the returned
contents and threading the cache state. -/
def runReads {L : Type} (layer : Nat → L) (cap : Nat) :
    List Nat → CacheState L → List L × CacheState L
  | [], s => ([], s)
  | i :: is, s =>
    let r := cacheRead layer cap s i
    let rs := runReads layer cap is r.2
    (r.1 :: rs.1, rs.2)

/-- Cache coherence: every stored entry holds exactly what the wrapped
printable's layer function produces at that index. -/
def Coherent {L : Type} (layer : Nat → L) (es : List (Nat × L)) : Prop :=
  ∀ iv ∈ es, iv.2 = layer iv.1

theorem lookupIdx_eq {L : Type} (layer : Nat → L) :
    ∀ es i v, Coherent layer es → lookupIdx es i = some v → v = layer i := by
  intro es
  induction es with
  | nil => intro i v _ h; cases h
  | cons hd tl ih =>
    intro i v hco h
    cases hd with
    | mk j w =>
      by_cases hj : j = i
      · simp [lookupIdx, hj] at h
        rw [← h]
        have hw := hco (j, w) (List.mem_cons_self _ _)
        simpa [hj] using hw
      · simp [lookupIdx, hj] at h
        exact ih i v (fun iv hm => hco iv (List.mem_cons_of_mem _ hm)) h

theorem cacheRead_fst {L : Type} (layer : Nat → L) (cap : Nat)
    (s : CacheState L) (i : Nat) (hco : Coherent layer s.entries) :
    (cacheRead layer cap s i).1 = layer i := by
  cases hl : lookupIdx s.entries i with
  | none => simp [cacheRead, hl]
  | some v =>
    simp [cacheRead, hl]
    exact lookupIdx_eq layer s.entries i v hco hl

theorem cacheRead_coherent {L : Type} (layer : Nat → L) (cap : Nat)
    (s : CacheState L) (i : Nat) (hco : Coherent layer s.entries) :
    Coherent layer ((cacheRead layer cap s i).2).entries := by
  cases hl : lookupIdx s.entries i with
  | some v =>
    simp only [cacheRead, hl]
    intro iv hm
    rcases List.mem_cons.mp hm with h | h
    · rw [h]
      exact lookupIdx_eq layer s.entries i v hco hl
    · exact hco iv (List.mem_of_mem_filter h)
  | none =>
    simp only [cacheRead, hl]
    intro iv hm
    have hm' : iv ∈ (i, layer i) :: s.entries := by
      by_cases hlen : cap < s.entries.length + 1
      · refine (List.dropLast_sublist ((i, layer i) :: s.entries)).subset ?_
        simpa [hlen] using hm
      · simpa [hlen] using hm
    rcases List.mem_cons.mp hm' with h | h
    · rw [h]
    · exact hco iv h

theorem runReads_fst {L : Type} (layer : Nat → L) (cap : Nat) :
    ∀ reads s, Coherent layer s.entries →
      (runReads layer cap reads s).1 = reads.map layer := by
  intro reads
  induction reads with
  | nil => intro s _; rfl
  | cons i is ih =>
    intro s hco
    simp only [runReads, List.map_cons]
    rw [cacheRead_fst layer cap s i hco,
      ih _ (cacheRead_coherent layer cap s i hco)]

/-- Claim C1: pipeline linearity — in every terminating successful run of
the interpreter loop started with no live value (and with commanders obeying
their contract of rejecting nil inputs and returning live outputs), the
recorded operation trace satisfies `emptyShape`: at most one decode, placed
at the first format token and immediately followed by the single cache
construction, every subsequent format token contributing exactly one encode
and every command token exactly one filter invocation, in left-to-right
token order (the trace lists operations in the order the loop performed
them). -/
theorem c1_pipeline_linearity {P E : Type} (env : Env P E) (fuel : Nat)
    (args : List Token) (tr : List (Event P))
    (hnil : FiltersRejectNil env) (hlive : FiltersPreserveLive env)
    (h : evalLoop env fuel args none = some (tr, none)) :
    emptyShape tr = true :=
  evalLoop_emptyShape env hnil hlive fuel args tr h

/-- Witness for C1: a concrete three-token pipeline (decode, filter, encode)
whose trace satisfies the linearity discipline. -/
theorem c1_witness :
    emptyShape [Event.decode "in.sl1", Event.cacheWrap 64,
      Event.filter "decimate" (some 10), Event.encode "out.ctb" 11] = true :=
  c1_pipeline_linearity demoEnv 3 ["in.sl1", "decimate", "out.ctb"]
    [Event.decode "in.sl1", Event.cacheWrap 64,
      Event.filter "decimate" (some 10), Event.encode "out.ctb" 11]
    demoEnv_rejectNil demoEnv_preserveLive (by rfl)

/-- Counterexample for C2: the interpreter does NOT itself fail with
`NoInputError` and does NOT avoid calling `Filter` on a null input — for the
single-token list consisting of the registered command `decimate`, the loop
invokes the command's `Filter` with the nil input (the trace records
`Event.filter "decimate" none`), and the `NoInputError` that is returned is
produced by the command, not by the interpreter. -/
theorem c2_counterexample :
    demoEnv.commandMap "decimate" = some decimateCmd ∧
    evalLoop demoEnv 1 ["decimate"] none =
      some ([Event.filter "decimate" none], some "NoInputError") :=
  ⟨rfl, rfl⟩

/-- Claim C2 (amended): when a registered command token whose option parse
succeeds is processed while no format token has been consumed (nil live
value), the interpreter invokes the command's `Filter` with the null input;
the `Filter` itself rejects it (with `NoInputError`, per the command
contract) and evaluation fails with exactly that error, performing no decode
and no encode (no I/O events in the trace). -/
theorem c2_no_input_rejection {P E : Type} (env : Env P E) (fuel : Nat)
    (tok : Token) (rest : List Token) (mkCmd : List Token → CmdInstance P E)
    (out : Option P) (e : E)
    (htok : tok ≠ "help")
    (hc : env.commandMap tok = some mkCmd)
    (hp : (mkCmd rest).parseResult = none)
    (hf : (mkCmd rest).filterFn none = (out, some e)) :
    evalLoop env (fuel + 1) (tok :: rest) none =
      some ([Event.filter tok none], some e) :=
  evalLoop_cons_halt env fuel tok rest none _ _ (by simp [step, htok, hc, hp, hf])

/-- Witness for the amended C2: the registered `decimate` command heading a
two-token list fails with the command's `NoInputError` and no I/O occurs. -/
theorem c2_witness :
    evalLoop demoEnv 2 ["decimate", "--foo"] none =
      some ([Event.filter "decimate" none], some "NoInputError") :=
  c2_no_input_rejection demoEnv 1 "decimate" ["--foo"] decimateCmd none
    "NoInputError" (by decide) rfl rfl rfl

/-- Claim C3: cache transparency — reading any sequence of layer indices, in
any order and with any repetition, through the layer-cache decorator started
empty returns exactly the contents the wrapped printable's layer function
yields at those indices, for any capacity of at least one. -/
theorem c3_cache_transparency {L : Type} (layer : Nat → L) (cap : Nat)
    (reads : List Nat) (_hcap : 1 ≤ cap) :
    (runReads layer cap reads ⟨[]⟩).1 = reads.map layer :=
  runReads_fst layer cap reads ⟨[]⟩ (fun iv hm => absurd hm (List.not_mem_nil iv))

/-- Witness for C3: a read sequence with repetitions and more distinct
indices than the capacity 2, so both hits and evictions occur. -/
theorem c3_witness :
    (runReads (fun i => i * i + 1) 2 [0, 1, 2, 1, 0, 1, 5] ⟨[]⟩).1 =
      List.map (fun i => i * i + 1) [0, 1, 2, 1, 0, 1, 5] :=
  c3_cache_transparency (fun i => i * i + 1) 2 [0, 1, 2, 1, 0, 1, 5] (by decide)

/-- Counterexample for C4: the token `help` matches neither the Commander
registry nor the Format registry of this environment, yet `evaluate` does
not return the format-resolution error — it prints usage and succeeds,
because the help check precedes both registry lookups. -/
theorem c4_counterexample :
    demoEnv.commandMap "help" = none ∧
    demoEnv.newFormat "help" [] = Except.error "UnrecognizedFormat: help" ∧
    evalLoop demoEnv 1 ["help"] none = some ([Event.usage], none) :=
  ⟨rfl, rfl, rfl⟩

/-- Claim C4 (amended): for every next token other than the help keyword
that matches neither the Commander registry (`commandMap` misses, so the
command-shaped token falls through to format resolution) nor the Format
registry (`NewFormat` fails), the loop returns exactly the error produced by
format resolution and stops before processing any further token (no events
are recorded, nothing after the failing token is consumed). -/
theorem c4_unrecognized_rejection {P E : Type} (env : Env P E) (fuel : Nat)
    (tok : Token) (rest : List Token) (input : Option P) (e : E)
    (htok : tok ≠ "help")
    (hc : env.commandMap tok = none)
    (hf : env.newFormat tok rest = Except.error e) :
    evalLoop env (fuel + 1) (tok :: rest) input = some ([], some e) :=
  evalLoop_cons_halt env fuel tok rest input _ _ (by simp [step, htok, hc, hf])

/-- Witness for the amended C4: an unregistered token aborts the pipeline
with the resolution error. -/
theorem c4_witness :
    evalLoop demoEnv 1 ["nope.xyz"] none =
      some ([], some "UnrecognizedFormat: nope.xyz") :=
  c4_unrecognized_rejection demoEnv 0 "nope.xyz" [] none
    "UnrecognizedFormat: nope.xyz" (by decide) rfl rfl

/-- Claim C5: encode is read-only for the pipeline state — whenever a format
token is processed while a live printable exists, the loop body invokes
encode (`SetPrintable`) on that very value, and when the encode succeeds the
live value bound after the step is the identical value bound before it
(while a failing encode aborts, still having been invoked on that value). -/
theorem c5_encode_read_only {P E : Type} (env : Env P E) (tok : Token)
    (rest : List Token) (p : P) (f : FormatInstance P E)
    (htok : tok ≠ "help") (hc : env.commandMap tok = none)
    (hnf : env.newFormat tok rest = Except.ok f) (hp : f.parseResult = none) :
    (f.encodeResult p = none →
      step env tok rest (some p) =
        StepOut.next [Event.encode tok p] f.residual (some p)) ∧
    (∀ e, f.encodeResult p = some e →
      step env tok rest (some p) =
        StepOut.halt [Event.encode tok p] (some e)) := by
  constructor
  · intro he
    simp [step, htok, hc, hnf, hp, he]
  · intro e he
    simp [step, htok, hc, hnf, hp, he]

/-- Witness for C5: encoding the live value 5 to a recognized output format
leaves the live value 5 in place. -/
theorem c5_witness :
    step demoEnv "out.ctb" [] (some 5) =
      StepOut.next [Event.encode "out.ctb" 5] [] (some 5) :=
  (c5_encode_read_only demoEnv "out.ctb" [] 5 (demoFormat [] 20)
    (by decide) rfl rfl rfl).1 rfl

/-- Claim C6: cache wrapping at the first decode — the default capacity
constant is 64; a successful decode step (the only kind possible while the
live value is nil) continues with the decoded value wrapped by the cache
constructor at that capacity, recording the one cache construction right
after the decode; and no loop-body iteration taken while a live value exists
ever constructs another cache (no `cacheWrap` event can appear). -/
theorem c6_cache_at_first_decode {P E : Type} (env : Env P E) :
    defaultCachedLayers = 64 ∧
    (∀ tok rest f p, tok ≠ "help" → env.commandMap tok = none →
      env.newFormat tok rest = Except.ok f → f.parseResult = none →
      f.decodeResult = (p, none) →
      step env tok rest none =
        StepOut.next [Event.decode tok, Event.cacheWrap defaultCachedLayers]
          f.residual (some (env.cache p defaultCachedLayers))) ∧
    (∀ tok rest p,
      hasCacheWrap (StepOut.eventsOf (step env tok rest (some p))) = false) := by
  refine ⟨rfl, ?_, ?_⟩
  · intro tok rest f p htok hc hnf hp hd
    simp [step, htok, hc, hnf, hp, hd]
  · intro tok rest p
    rcases step_some_cases env tok rest p with h0 | ⟨evs, e, hevs, h0⟩ |
        ⟨f, _, _, _, h0⟩ | ⟨mkCmd, out, _, _, h0⟩
    · rw [h0]; rfl
    · rw [h0]
      rcases hevs with h | h | h <;> rw [h] <;> rfl
    · rw [h0]; rfl
    · rw [h0]; rfl

/-- Witness for C6: the first decode in the demo environment is wrapped at
capacity 64. -/
theorem c6_witness :
    step demoEnv "in.sl1" [] none =
      StepOut.next [Event.decode "in.sl1", Event.cacheWrap 64] [] (some 10) :=
  (c6_cache_at_first_decode demoEnv).2.1 "in.sl1" [] (demoFormat [] 10) (some 10)
    (by decide) rfl rfl rfl rfl

/-- Claim C7: `Loaded` is absorbing — along every chain of continuing
loop-body iterations starting from a state with a live (non-nil) printable,
every reachable state still has a live printable, provided commanders obey
their contract that a successful `Filter` returns a live output; in
particular a successful filter never leaves the pipeline without a live
value. -/
theorem c7_loaded_absorbing {P E : Type} (env : Env P E)
    (hlive : FiltersPreserveLive env) (s s' : List Token × Option P)
    (h : Reaches env s s') (p : P) (hs : s.2 = some p) :
    (s'.2).isSome = true := by
  induction h generalizing p with
  | refl s => rw [hs]; rfl
  | head hstep htail ih =>
    rename_i tok rest input evs args' input' s2
    simp only at hs
    subst hs
    rcases Option.isSome_iff_exists.mp
        (step_next_isSome env hlive tok rest p evs args' input' hstep) with ⟨q, hq⟩
    exact ih q (by simp [hq])

/-- Witness for C7: a one-step reachable state after an encode still holds
the live value 5. -/
theorem c7_witness : (Option.some (5 : Nat)).isSome = true := by
  have hstep : step demoEnv "out.ctb" [] (some 5) =
      StepOut.next [Event.encode "out.ctb" 5] [] (some 5) := rfl
  exact c7_loaded_absorbing demoEnv demoEnv_preserveLive (["out.ctb"], some 5)
    ([], some 5) (Reaches.head hstep (Reaches.refl ([], some 5))) 5 rfl

/-- Claim C8: usage display — `evaluate` on an empty token list prints usage
and succeeds, and whenever `help` is the next unconsumed token at any loop
iteration with any live value, the loop prints usage and returns success,
discarding all remaining tokens without resolving, decoding, encoding or
filtering anything (the trace is exactly the one usage event). -/
theorem c8_usage_display {P E : Type} (env : Env P E) :
    evaluate env ([] : List Token) = some ([Event.usage], none) ∧
    (∀ fuel rest input, evalLoop env (fuel + 1) ("help" :: rest) input =
      some ([Event.usage], none)) := by
  constructor
  · rfl
  · intro fuel rest input
    exact evalLoop_cons_halt env fuel "help" rest input _ _ (by simp [step])

/-- Witness for C8: `help` mid-pipeline with junk tokens after it still
terminates successfully with only the usage display. -/
theorem c8_witness :
    evalLoop demoEnv 3 ["help", "junk1", "junk2"] (some 7) =
      some ([Event.usage], none) :=
  (c8_usage_display demoEnv).2 2 ["junk1", "junk2"] (some 7)

/-- Claim C9: fail-fast propagation — if the loop body's current iteration
fails (any of format resolution, format parse, decode, encode, command
parse, or filter returning an error), `evalLoop` returns exactly that error
with exactly that iteration's events, examining no further token and
attempting no further operation; and if the iteration continues, the overall
result is that iteration's events prepended to the rest of the run, so
events (encodes) completed before a later failure are preserved, never
undone. -/
theorem c9_fail_fast {P E : Type} (env : Env P E) (fuel : Nat) (tok : Token)
    (rest : List Token) (input : Option P) :
    (∀ evs e, step env tok rest input = StepOut.halt evs (some e) →
      evalLoop env (fuel + 1) (tok :: rest) input = some (evs, some e)) ∧
    (∀ evs args' input', step env tok rest input = StepOut.next evs args' input' →
      evalLoop env (fuel + 1) (tok :: rest) input =
        (evalLoop env fuel args' input').map (fun r => (evs ++ r.1, r.2))) := by
  constructor
  · intro evs e h
    exact evalLoop_cons_halt env fuel tok rest input _ _ h
  · intro evs args' input' h
    exact evalLoop_cons_next env fuel tok rest input _ _ _ h

/-- Witness for C9: a failing format resolution at the head token is
returned immediately with no events. -/
theorem c9_witness :
    evalLoop demoEnv 1 ["bogus"] none =
      some ([], some "UnrecognizedFormat: bogus") :=
  (c9_fail_fast demoEnv 0 "bogus" [] none).1 [] "UnrecognizedFormat: bogus" rfl

/-- Claim C10: termination — under the precondition that every stage's
residual tokens (`cmd.Args()` / `format.Args()`) form a sub-list of the
tokens handed to the stage, the remaining token count strictly decreases on
every continuing iteration, so `evaluate` (which runs the loop with fuel
equal to the token count) always produces a result. -/
theorem c10_termination {P E : Type} (env : Env P E)
    (hsh : ResidualsShrink env) (args : List Token) :
    (evaluate env args).isSome = true := by
  by_cases h : args.isEmpty
  · simp [evaluate, h]
  · rw [evaluate, if_neg h]
    exact evalLoop_total env hsh args.length args none (Nat.le_refl _)

/-- Witness for C10: a four-token pipeline in the demo environment (whose
stages consume exactly their own head token) terminates. -/
theorem c10_witness :
    (evaluate demoEnv ["in.sl1", "decimate", "out.ctb", "out.ctb"]).isSome = true :=
  c10_termination demoEnv demoEnv_shrink _

end Uv3dp
